import Mathlib

/-!
# Scroodle server — shallow embedding

A shallow embedding of the server-side game logic of the Scroodle
draw-and-guess application (matchmaking queue, room state store, round
state machine, resolution engine, broadcast redaction), together with
proofs about the claims of its specification.

The stateful request handlers mutate a Redis-backed store through
optimistic (watch/multi/exec) transactions.  Each transaction body is a
pure function from the value read under the watch to the value written;
those pure bodies are what is embedded here.  Timestamps (`Date.now()`
milliseconds) are `Nat`; JavaScript records keyed by user id are
association lists; `undefined`-able fields are `Option`.
-/

namespace Scroodle

/-- Room lifecycle status (TS union `"waiting" | "playing" | "ended"`). -/
inductive RoomStatus where
  | waiting
  | playing
  | ended
deriving Repr, DecidableEq

/-- TS type `Player`. -/
structure Player where
  userId : String
  userName : String
  score : Nat
  lastSeen : Nat
deriving Repr, DecidableEq

/-- TS type `QueueEntry`. -/
structure QueueEntry where
  userId : String
  userName : String
  joinedAt : Nat
  lastSeen : Nat
deriving Repr, DecidableEq

/-- TS type `RoomState`.  `players` models the JS record
`Record<string, Player>` as an association list keyed by user id. -/
structure RoomState where
  roomId : String
  status : RoomStatus
  createdAt : Nat
  updatedAt : Nat
  players : List (String × Player)
  order : List String
  roundNumber : Nat
  maxRounds : Nat
  drawerUserId : Option String
  word : Option String
  roundEndsAt : Option Nat
  roundResolvedAt : Option Nat
  guessedCorrectUserIds : List String
deriving Repr, DecidableEq

/-- Record lookup `players[userId]` on the association-list model. -/
def lookupP : List (String × Player) → String → Option Player
  | [], _ => none
  | kv :: rest, uid => if kv.1 = uid then some kv.2 else lookupP rest uid

/-- JS `delete room.players[userId]`. -/
def removeP (ps : List (String × Player)) (uid : String) : List (String × Player) :=
  ps.filter (fun kv => kv.1 ≠ uid)

/-- JS `players[uid].score += delta`: bump the score of the entry keyed
`uid`, leaving every other entry unchanged. -/
def bumpScore (ps : List (String × Player)) (uid : String) (delta : Nat) :
    List (String × Player) :=
  ps.map (fun kv =>
    if kv.1 = uid then (kv.1, { kv.2 with score := kv.2.score + delta }) else kv)

/-- Source `maskWord`: `word.replace(/[A-Za-z]/g, "_")`.  `Char.isAlpha`
is exactly the ASCII ranges `A`-`Z` and `a`-`z`. -/
def maskWord (w : String) : String :=
  String.mk (w.data.map (fun c => if c.isAlpha then '_' else c))

/-- ASCII model of `String.prototype.toLowerCase` used by the guess
comparison. -/
def lowerAscii (s : String) : String :=
  String.mk (s.data.map Char.toLower)

/-- Source `withRoomDefaults`.  The `Array.isArray(guessedCorrectUserIds)`
repair is vacuous in the typed model (the field is always a list); the
`maxRounds` repair (`Number.isFinite` fails only on non-numbers, which a
`Nat` cannot be) keeps its `< 1` branch. -/
def withRoomDefaults (room : RoomState) : RoomState :=
  if room.maxRounds < 1 then { room with maxRounds := 3 } else room

/-- The viewer-facing snapshot (TS `RoomPublicState` as populated by
`publicState`). -/
structure RoomPublicState where
  roomId : String
  status : RoomStatus
  createdAt : Nat
  updatedAt : Nat
  players : List Player
  drawerUserId : Option String
  roundEndsAt : Option Nat
  roundNumber : Nat
  maxRounds : Nat
  wordMask : Option String
  word : Option String
deriving Repr, DecidableEq

/-- Stable insert for the descending-score order used by
`Object.values(room.players).sort((a, b) => b.score - a.score)`. -/
def insertByScoreDesc (p : Player) : List Player → List Player
  | [] => [p]
  | x :: xs =>
    if x.score ≤ p.score then p :: x :: xs else x :: insertByScoreDesc p xs

/-- Stable descending-score sort of the player roster (JS `Array.sort`
is stable). -/
def sortByScoreDesc : List Player → List Player
  | [] => []
  | x :: xs => insertByScoreDesc x (sortByScoreDesc xs)

/-- Source `publicState(room, viewerId)`: the personalized snapshot.  The
secret word is attached only when the viewer is the current drawer; the
mask is attached whenever `room.word` is truthy (JS `room.word ?` — the
empty string is falsy). -/
def publicState (room : RoomState) (viewerId : String) : RoomPublicState :=
  let players := sortByScoreDesc (room.players.map Prod.snd)
  let isDrawer := room.drawerUserId = some viewerId
  { roomId := room.roomId
    status := room.status
    createdAt := room.createdAt
    updatedAt := room.updatedAt
    players := players
    drawerUserId := room.drawerUserId
    roundEndsAt := room.roundEndsAt
    roundNumber := room.roundNumber
    maxRounds := room.maxRounds
    wordMask :=
      match room.word with
      | some w => if w.isEmpty then none else some (maskWord w)
      | none => none
    word := if isDrawer then room.word else none }

/-- Source `broadcastRoomState`: the snapshot sent to the room's shared
channel is `publicState(room, "not-a-viewer")`, i.e. redaction is
achieved by passing a sentinel viewer id. -/
def broadcastState (room : RoomState) : RoomPublicState :=
  publicState room "not-a-viewer"

/-- The drawer-rotation expression of `advanceOrEndRound`:
`idx = order.indexOf(drawerUserId ?? order[0])` (JS `indexOf` yields `-1`
when absent) followed by `order[(idx + 1) % order.length]`.  An empty
`order` yields JS `undefined`, modelled as `none`. -/
def pickNextDrawer (order : List String) (drawer : Option String) : Option String :=
  match order with
  | [] => none
  | _ :: _ =>
    let target := drawer.getD (order.headD "")
    let idx : Int :=
      match order.findIdx? (fun x => x = target) with
      | some i => (i : Int)
      | none => -1
    order.get? ((idx + 1) % (order.length : Int)).toNat

/-- Source `advanceOrEndRound` (its state mutation; broadcasts are
side channels).  `roundSecs` is the clamped `roundTimeSec` setting and
`newWord` the word drawn by `pickWord()` for the next round. -/
def advanceOrEnd (room : RoomState) (now roundSecs : Nat) (newWord : String) :
    RoomState :=
  if room.maxRounds ≤ room.roundNumber then
    { room with
      status := RoomStatus.ended
      word := none
      drawerUserId := none
      roundEndsAt := none
      roundResolvedAt := some now
      updatedAt := now }
  else
    { room with
      roundNumber := room.roundNumber + 1
      drawerUserId := pickNextDrawer room.order room.drawerUserId
      word := some newWord
      roundEndsAt := some (now + roundSecs * 1000)
      roundResolvedAt := none
      guessedCorrectUserIds := []
      updatedAt := now }

/-- The transaction body of the correct-guess resolution in
`POST /api/room/:roomId/guess` (the re-checks and mutation performed
between `redis.watch` and `txn.exec`).  `none` means the handler returns
without writing the room (an error response or a benign no-op). -/
def resolveGuessTxn (room : RoomState) (uid : String) (now : Nat) :
    Option RoomState :=
  if (lookupP room.players uid).isNone then none
  else if room.drawerUserId = some uid then none
  else if room.status ≠ RoomStatus.playing then none
  else if room.roundResolvedAt.isSome then none
  else if uid ∈ room.guessedCorrectUserIds then none
  else
    let ps := bumpScore room.players uid 10
    let ps :=
      match room.drawerUserId with
      | some d => if (lookupP ps d).isSome then bumpScore ps d 3 else ps
      | none => ps
    some { room with
           roundResolvedAt := some now
           updatedAt := now
           guessedCorrectUserIds := room.guessedCorrectUserIds ++ [uid]
           players := ps }

/-- The guess-correctness test:
`typeof room.word === "string" && text.toLowerCase() === room.word.toLowerCase()`. -/
def isCorrectGuess (word : Option String) (text : String) : Bool :=
  match word with
  | some w => lowerAscii text = lowerAscii w
  | none => false

/-- `const text = textRaw.trim().slice(0, 80)` of the guess handler. -/
def normalizeGuessText (text : String) : String :=
  String.mk ((((text.data.dropWhile Char.isWhitespace).reverse.dropWhile
    Char.isWhitespace).reverse).take 80)

/-- The full `POST /api/room/:roomId/guess` effect on the room state:
pre-transaction gates, then the resolution transaction, then
`advanceOrEndRound` on a winning resolution.  Branches that do not write
the room return it unchanged. -/
def guessStep (room : RoomState) (uid text : String) (now roundSecs : Nat)
    (newWord : String) : RoomState :=
  if (lookupP room.players uid).isNone then room
  else if room.drawerUserId = some uid then room
  else if room.status ≠ RoomStatus.playing then room
  else if normalizeGuessText text = "" then room
  else if ¬ isCorrectGuess room.word (normalizeGuessText text) then room
  else
    match resolveGuessTxn room uid now with
    | none => room
    | some r => advanceOrEnd r now roundSecs newWord

/-- The transaction body of `POST /api/room/:roomId/advance`: member,
status, resolution-gate and deadline checks, then the `roundResolvedAt`
stamp.  `none` means no state write. -/
def advanceGate (room : RoomState) (uid : String) (now : Nat) :
    Option RoomState :=
  if (lookupP room.players uid).isNone then none
  else if room.status ≠ RoomStatus.playing then none
  else if room.roundResolvedAt.isSome then none
  else if (match room.roundEndsAt with
           | some t => decide (now < t)
           | none => false) then none
  else some { room with roundResolvedAt := some now, updatedAt := now }

/-- The full `POST /api/room/:roomId/advance` effect on the room state:
the gate, then `advanceOrEndRound` on a winning resolution. -/
def advanceStep (room : RoomState) (uid : String) (now roundSecs : Nat)
    (newWord : String) : RoomState :=
  match advanceGate room uid now with
  | none => room
  | some r => advanceOrEnd r now roundSecs newWord

/-- Result of `POST /api/room/:roomId/leave`: the surviving room record
(`none` when the room was deleted) and the users whose user-room index
entries were cleared (`setUserRoom(.., null)`). -/
structure LeaveOutcome where
  room : Option RoomState
  clearedUsers : List String
deriving Repr, DecidableEq

/-- Source `POST /api/room/:roomId/leave` (room present): remove the
caller from `players` and `order`, always clear the caller's index
entry; if fewer than 2 members remain, clear every remaining member's
index entry and delete the room; else if the departing player was the
drawer of a playing room, stamp `roundResolvedAt` and run
`advanceOrEndRound`; else just save. -/
def leaveStep (room : RoomState) (uid : String) (now roundSecs : Nat)
    (newWord : String) : LeaveOutcome :=
  let room1 := { room with
                 players := removeP room.players uid
                 order := room.order.filter (fun id => id ≠ uid)
                 updatedAt := now }
  if room1.order.length < 2 then
    { room := none, clearedUsers := uid :: room1.order }
  else if room1.drawerUserId = some uid ∧ room1.status = RoomStatus.playing then
    { room := some (advanceOrEnd { room1 with roundResolvedAt := some now }
        now roundSecs newWord)
      clearedUsers := [uid] }
  else
    { room := some room1, clearedUsers := [uid] }

/-- The staleness filter `queue.filter((q) => q.lastSeen >= staleCutoff)`
applied by every queue operation before acting. -/
def staleFiltered (staleCutoff : Nat) (queue : List QueueEntry) : List QueueEntry :=
  queue.filter (fun e => staleCutoff ≤ e.lastSeen)

/-- The transaction body of `tryMatchPickAtomic`: filter stale entries,
refuse below the minimum, start when the room would be full or the
oldest entry has waited out the quick-start timeout, and split off the
first `min(maxPlayers, length)` entries.  `quickStartMs` is
`quickStartSeconds * 1000`.  The empty-queue arm is unreachable for the
clamped `minPlayers ≥ 2` of the source (JS would fault on
`queue[0].joinedAt`). -/
def tryMatchPick (maxPlayers minPlayers quickStartMs now staleCutoff : Nat)
    (queue : List QueueEntry) : Option (List QueueEntry × List QueueEntry) :=
  let q := staleFiltered staleCutoff queue
  if q.length < minPlayers then none
  else
    match q with
    | [] => none
    | e0 :: _ =>
      if maxPlayers ≤ q.length ∨
          (minPlayers ≤ q.length ∧ quickStartMs ≤ now - e0.joinedAt) then
        let picked := q.take (min maxPlayers q.length)
        some (picked, q.drop picked.length)
      else none

/-- Source `getSubredditSettingNumber`: a setting that is absent or not
coercible to a finite number (`Number(val)` is `NaN`) yields the
fallback.  `none` models both the missing and the non-numeric case. -/
def settingNumber (val : Option Int) (fallback : Int) : Int :=
  val.getD fallback

/-- `Math.min(4, Math.max(2, settings.maxPlayers ?? 4))` of
`tryMatchPickAtomic`; the result lies in `[2, 4]` so `toNat` is exact. -/
def clampMaxPlayers (val : Option Int) : Nat :=
  (min 4 (max 2 (settingNumber val 4))).toNat

/-- `Math.max(2, settings.minPlayersToStart ?? 2)` of
`tryMatchPickAtomic`; the result is at least `2` so `toNat` is exact. -/
def clampMinPlayers (val : Option Int) : Nat :=
  (max 2 (settingNumber val 2)).toNat

/-- The room record built by `maybeStartMatchForPost` from the picked
queue entries (`maxRounds` is the clamped `roundsPerGame` setting). -/
def createRoomFromPicked (roomId : String) (picked : List QueueEntry)
    (now roundSecs maxRounds : Nat) (word : String) : RoomState :=
  { roomId := roomId
    status := RoomStatus.playing
    createdAt := now
    updatedAt := now
    players := picked.map (fun p => (p.userId, ⟨p.userId, p.userName, 0, p.lastSeen⟩))
    order := picked.map (fun p => p.userId)
    roundNumber := 1
    maxRounds := maxRounds
    drawerUserId := (picked.map (fun p => p.userId)).head?
    word := some word
    roundEndsAt := some (now + roundSecs * 1000)
    roundResolvedAt := none
    guessedCorrectUserIds := [] }

/-- The retry loop `for (attempt = 0; attempt < 5; attempt++)` over an
oracle saying which `txn.exec()` attempts succeed: the index of the
first successful attempt, if any. -/
def firstSuccess (attempts : Nat) (succeeds : Nat → Bool) : Option Nat :=
  (List.range attempts).find? succeeds

/-- Source `MAX_QUEUE_TRANSACTION_RETRIES`. -/
def maxQueueTransactionRetries : Nat := 5

/-- The `findIndex`-then-update-or-push body of `queueUpsertAtomic`:
refresh the first entry with the caller's id, else append. -/
def upsertEntry (uid name : String) (now : Nat) :
    List QueueEntry → List QueueEntry
  | [] => [⟨uid, name, now, now⟩]
  | e :: rest =>
    if e.userId = uid then { e with userName := name, lastSeen := now } :: rest
    else e :: upsertEntry uid name now rest

/-- Stable insert for `queue.sort((a, b) => a.joinedAt - b.joinedAt)`. -/
def insertByJoined (e : QueueEntry) : List QueueEntry → List QueueEntry
  | [] => [e]
  | x :: xs =>
    if e.joinedAt ≤ x.joinedAt then e :: x :: xs else x :: insertByJoined e xs

/-- Stable ascending-`joinedAt` sort (JS `Array.sort` is stable). -/
def sortQueue : List QueueEntry → List QueueEntry
  | [] => []
  | x :: xs => insertByJoined x (sortQueue xs)

/-- The queue transform applied by one `queueUpsertAtomic` attempt (and,
verbatim, by its post-retry fallback): drop stale entries, upsert the
caller, sort by join time. -/
def upsertQueue (queue : List QueueEntry) (uid name : String)
    (now staleCutoff : Nat) : List QueueEntry :=
  sortQueue (upsertEntry uid name now (staleFiltered staleCutoff queue))

/-- Control flow of `queueUpsertAtomic` under an exec-success oracle, in
an interference-free run (the watched key is not changed by others, so
every attempt and the fallback read the same queue): a successful
attempt commits the transform atomically; exhaustion falls back to a
non-atomic read-modify-write of the same transform. -/
def queueUpsertAtomicModel (succeeds : Nat → Bool) (queue : List QueueEntry)
    (uid name : String) (now staleCutoff : Nat) : List QueueEntry :=
  match firstSuccess maxQueueTransactionRetries succeeds with
  | some _ => upsertQueue queue uid name now staleCutoff
  | none => upsertQueue queue uid name now staleCutoff

/-- Control flow of `queueRemoveUserAtomic` under an exec-success
oracle: the filter commits atomically, or via the non-atomic fallback
after exhaustion. -/
def queueRemoveUserAtomicModel (succeeds : Nat → Bool)
    (queue : List QueueEntry) (uid : String) : List QueueEntry :=
  match firstSuccess maxQueueTransactionRetries succeeds with
  | some _ => queue.filter (fun e => e.userId ≠ uid)
  | none => queue.filter (fun e => e.userId ≠ uid)

/-- Control flow of `queueFilterStaleAtomic` under an exec-success
oracle: on success the filtered queue is written and `true` returned;
after exhausting the retries the function returns `false` WITHOUT any
fallback write, so the queue is left unchanged. -/
def queueFilterStaleAtomicModel (succeeds : Nat → Bool)
    (queue : List QueueEntry) (staleCutoff : Nat) : List QueueEntry × Bool :=
  match firstSuccess maxQueueTransactionRetries succeeds with
  | some _ => (staleFiltered staleCutoff queue, true)
  | none => (queue, false)

/-- The user-room index read shared verbatim by `GET /api/session` and
`POST /api/matchmaking/join`: a mapping is returned only when the named
room exists (after `withRoomDefaults`) and lists the user in `players`;
otherwise it is treated as stale and cleared (`setUserRoom(.., null)`).
Returns (room id handed to the caller, index entry after the read). -/
def resolveUserRoomMapping (mapping : Option String)
    (load : String → Option RoomState) (uid : String) :
    Option String × Option String :=
  match mapping with
  | none => (none, none)
  | some rid =>
    match load rid with
    | some room =>
      if (lookupP (withRoomDefaults room).players uid).isSome then
        (some rid, some rid)
      else (none, none)
    | none => (none, none)

/-- The round-advancing request surface of a room (the operations that
funnel into `advanceOrEndRound`). -/
inductive GameOp where
  | guess (uid text : String) (now roundSecs : Nat) (newWord : String)
  | advance (uid : String) (now roundSecs : Nat) (newWord : String)

/-- Apply one request to a room state. -/
def applyOp (room : RoomState) : GameOp → RoomState
  | GameOp.guess uid text now roundSecs newWord =>
    guessStep room uid text now roundSecs newWord
  | GameOp.advance uid now roundSecs newWord =>
    advanceStep room uid now roundSecs newWord

/-- Apply a sequence of requests. -/
def applyOps (room : RoomState) (ops : List GameOp) : RoomState :=
  ops.foldl applyOp room

/-- The round-counter invariant of the spec's data model: a playing room
never has `roundNumber` above `maxRounds`. -/
def roomInv (room : RoomState) : Prop :=
  room.status = RoomStatus.playing → room.roundNumber ≤ room.maxRounds

/-- Sample data for concrete witnesses. -/
def alicePlayer : Player := ⟨"t2_a", "Alice", 0, 0⟩

def bobPlayer : Player := ⟨"t2_b", "Bob", 0, 0⟩

/-- A 2-player playing room in round 1 with Alice drawing. -/
def sampleRoom : RoomState :=
  { roomId := "r1"
    status := RoomStatus.playing
    createdAt := 0
    updatedAt := 0
    players := [("t2_a", alicePlayer), ("t2_b", bobPlayer)]
    order := ["t2_a", "t2_b"]
    roundNumber := 1
    maxRounds := 3
    drawerUserId := some "t2_a"
    word := some "guitar"
    roundEndsAt := some 80000
    roundResolvedAt := none
    guessedCorrectUserIds := [] }

theorem lookupP_bumpScore_self (ps : List (String × Player)) (uid : String)
    (delta : Nat) :
    lookupP (bumpScore ps uid delta) uid =
      (lookupP ps uid).map (fun p => { p with score := p.score + delta }) := by
  induction ps with
  | nil => rfl
  | cons kv rest ih =>
    simp only [bumpScore, List.map_cons, lookupP]
    by_cases h : kv.1 = uid
    · simp [h, lookupP]
    · simpa [h, lookupP, bumpScore] using ih

theorem lookupP_bumpScore_other (ps : List (String × Player)) (uid v : String)
    (delta : Nat) (h : v ≠ uid) :
    lookupP (bumpScore ps uid delta) v = lookupP ps v := by
  have h' : uid ≠ v := Ne.symm h
  induction ps with
  | nil => rfl
  | cons kv rest ih =>
    simp only [bumpScore, List.map_cons, lookupP]
    by_cases hk : kv.1 = uid <;> by_cases hv : kv.1 = v <;>
      simp_all [lookupP, bumpScore]

theorem lookupP_removeP_self (ps : List (String × Player)) (uid : String) :
    lookupP (removeP ps uid) uid = none := by
  induction ps with
  | nil => rfl
  | cons kv rest ih =>
    by_cases h : kv.1 = uid
    · simpa [removeP, h, lookupP] using ih
    · simpa [removeP, h, lookupP] using ih

theorem advanceOrEnd_players (room : RoomState) (now roundSecs : Nat)
    (w : String) : (advanceOrEnd room now roundSecs w).players = room.players := by
  unfold advanceOrEnd
  split <;> rfl

theorem advanceOrEnd_order (room : RoomState) (now roundSecs : Nat)
    (w : String) : (advanceOrEnd room now roundSecs w).order = room.order := by
  unfold advanceOrEnd
  split <;> rfl

theorem roomInv_advanceOrEnd (room : RoomState) (now roundSecs : Nat)
    (w : String) : roomInv (advanceOrEnd room now roundSecs w) := by
  unfold roomInv advanceOrEnd
  split
  · intro h
    simp at h
  · intro _
    simp only
    omega

theorem resolveGuessTxn_some_fields (room : RoomState) (uid : String)
    (now : Nat) (r : RoomState) (h : resolveGuessTxn room uid now = some r) :
    r.status = room.status ∧ r.roundNumber = room.roundNumber ∧
      r.maxRounds = room.maxRounds ∧ r.order = room.order ∧
      r.roundResolvedAt = some now := by
  unfold resolveGuessTxn at h
  split_ifs at h
  cases h
  exact ⟨rfl, rfl, rfl, rfl, rfl⟩

theorem resolveGuessTxn_none_of_resolved (room : RoomState) (uid : String)
    (now t : Nat) (h : room.roundResolvedAt = some t) :
    resolveGuessTxn room uid now = none := by
  unfold resolveGuessTxn
  split_ifs with h1 h2 h3 h4 h5 <;> try rfl
  exact absurd (h ▸ h4) (by simp)

theorem advanceGate_none_of_resolved (room : RoomState) (uid : String)
    (now t : Nat) (h : room.roundResolvedAt = some t) :
    advanceGate room uid now = none := by
  unfold advanceGate
  split_ifs with h1 h2 h3 h4 <;> try rfl
  exact absurd (h ▸ h3) (by simp)

/-- C1. For a playing, unresolved room, a correct-guess resolution by a
non-drawer member that wins the optimistic transaction stamps
`roundResolvedAt`, appends the caller to `guessedCorrectUserIds`, adds
10 to the guesser's score and 3 to the drawer's score in the same
transaction body, leaving every other score unchanged; and once
`roundResolvedAt` is set, every further correct-guess or advance
resolution is a no-op (no state write), so at most one resolution occurs
per round number. -/
theorem claim_C1_guess_resolution (room : RoomState) (uid d : String)
    (pu pd : Player) (now : Nat)
    (hst : room.status = RoomStatus.playing)
    (hres : room.roundResolvedAt = none)
    (hmem : lookupP room.players uid = some pu)
    (hd : room.drawerUserId = some d)
    (hdm : lookupP room.players d = some pd)
    (hne : uid ≠ d)
    (hng : uid ∉ room.guessedCorrectUserIds) :
    (∃ r', resolveGuessTxn room uid now = some r' ∧
       r'.roundResolvedAt = some now ∧ r'.updatedAt = now ∧
       r'.guessedCorrectUserIds = room.guessedCorrectUserIds ++ [uid] ∧
       lookupP r'.players uid = some { pu with score := pu.score + 10 } ∧
       lookupP r'.players d = some { pd with score := pd.score + 3 } ∧
       (∀ v, v ≠ uid → v ≠ d → lookupP r'.players v = lookupP room.players v)) ∧
    (∀ (room2 : RoomState) (uid2 : String) (t now2 : Nat),
       room2.roundResolvedAt = some t →
       resolveGuessTxn room2 uid2 now2 = none ∧
         advanceGate room2 uid2 now2 = none) := by
  constructor
  · have hdne : d ≠ uid := Ne.symm hne
    have hdm2 : lookupP (bumpScore room.players uid 10) d = some pd :=
      (lookupP_bumpScore_other room.players uid d 10 hdne).trans hdm
    have hgate : resolveGuessTxn room uid now =
        some { room with
               roundResolvedAt := some now
               updatedAt := now
               guessedCorrectUserIds := room.guessedCorrectUserIds ++ [uid]
               players := bumpScore (bumpScore room.players uid 10) d 3 } := by
      simp only [resolveGuessTxn]
      rw [hmem, hd, hres, hst]
      simp [hng, hdne, hdm2]
    refine ⟨_, hgate, rfl, rfl, rfl, ?_, ?_, ?_⟩
    · show lookupP (bumpScore (bumpScore room.players uid 10) d 3) uid = _
      rw [lookupP_bumpScore_other _ d uid 3 hne, lookupP_bumpScore_self, hmem]
      rfl
    · show lookupP (bumpScore (bumpScore room.players uid 10) d 3) d = _
      rw [lookupP_bumpScore_self, hdm2]
      rfl
    · intro v hvu hvd
      show lookupP (bumpScore (bumpScore room.players uid 10) d 3) v = _
      rw [lookupP_bumpScore_other _ d v 3 hvd,
        lookupP_bumpScore_other _ uid v 10 hvu]
  · intro room2 uid2 t now2 h2
    exact ⟨resolveGuessTxn_none_of_resolved room2 uid2 now2 t h2,
      advanceGate_none_of_resolved room2 uid2 now2 t h2⟩

/-- Witness for C1 at a concrete room: Bob (non-drawer) resolves the
round at time 5; he gains 10 points and drawer Alice gains 3. -/
theorem claim_C1_witness :
    ∃ r', resolveGuessTxn sampleRoom "t2_b" 5 = some r' ∧
      r'.roundResolvedAt = some 5 ∧
      lookupP r'.players "t2_b" = some { bobPlayer with score := bobPlayer.score + 10 } ∧
      lookupP r'.players "t2_a" = some { alicePlayer with score := alicePlayer.score + 3 } := by
  obtain ⟨r', h1, h2, _, _, h5, h6, _⟩ :=
    (claim_C1_guess_resolution sampleRoom "t2_b" "t2_a" bobPlayer alicePlayer 5
      rfl rfl (by decide) rfl (by decide) (by decide) (by decide)).1
  exact ⟨r', h1, h2, h5, h6⟩

theorem pickNextDrawer_found (order : List String) (d : String) (i : Nat)
    (hidx : order.findIdx? (fun x => x = d) = some i) :
    pickNextDrawer order (some d) = order.get? ((i + 1) % order.length) := by
  cases order with
  | nil => simp [List.findIdx?] at hidx
  | cons a os =>
    simp only [pickNextDrawer, Option.getD_some]
    rw [hidx]
    congr 1

/-- C3. `advanceOrEnd`: at `roundNumber ≥ maxRounds` the room moves to
`ended` with word, drawer and deadline cleared; otherwise a new round
starts: drawer rotated one position past the current drawer (wrapping),
a fresh word assigned, `roundEndsAt = now + roundDuration`,
`roundResolvedAt` and `guessedCorrectUserIds` cleared, `roundNumber`
incremented by 1. -/
theorem claim_C3_advance_or_end (room : RoomState) (now roundSecs : Nat)
    (w : String) :
    (room.maxRounds ≤ room.roundNumber →
       (advanceOrEnd room now roundSecs w).status = RoomStatus.ended ∧
       (advanceOrEnd room now roundSecs w).word = none ∧
       (advanceOrEnd room now roundSecs w).drawerUserId = none ∧
       (advanceOrEnd room now roundSecs w).roundEndsAt = none) ∧
    (room.roundNumber < room.maxRounds →
       (advanceOrEnd room now roundSecs w).roundNumber = room.roundNumber + 1 ∧
       (advanceOrEnd room now roundSecs w).word = some w ∧
       (advanceOrEnd room now roundSecs w).roundEndsAt =
         some (now + roundSecs * 1000) ∧
       (advanceOrEnd room now roundSecs w).roundResolvedAt = none ∧
       (advanceOrEnd room now roundSecs w).guessedCorrectUserIds = [] ∧
       (advanceOrEnd room now roundSecs w).status = room.status ∧
       (∀ d i, room.drawerUserId = some d →
          room.order.findIdx? (fun x => x = d) = some i →
          (advanceOrEnd room now roundSecs w).drawerUserId =
            room.order.get? ((i + 1) % room.order.length))) := by
  constructor
  · intro h
    unfold advanceOrEnd
    rw [if_pos h]
    exact ⟨rfl, rfl, rfl, rfl⟩
  · intro h
    unfold advanceOrEnd
    rw [if_neg (by omega)]
    refine ⟨rfl, rfl, rfl, rfl, rfl, rfl, ?_⟩
    intro d i hd hidx
    show pickNextDrawer room.order room.drawerUserId = _
    rw [hd]
    exact pickNextDrawer_found room.order d i hidx

/-- Witness for C3: advancing `sampleRoom` (round 1 of 3) at time 100
with an 80-second round starts round 2 with Bob drawing. -/
theorem claim_C3_witness :
    (advanceOrEnd sampleRoom 100 80 "river").roundNumber = 2 ∧
      (advanceOrEnd sampleRoom 100 80 "river").word = some "river" ∧
      (advanceOrEnd sampleRoom 100 80 "river").roundEndsAt = some 80100 ∧
      (advanceOrEnd sampleRoom 100 80 "river").drawerUserId =
        sampleRoom.order.get? ((0 + 1) % sampleRoom.order.length) := by
  obtain ⟨h1, h2, h3, _, _, _, h7⟩ :=
    (claim_C3_advance_or_end sampleRoom 100 80 "river").2 (by decide)
  exact ⟨h1, h2, h3, h7 "t2_a" 0 rfl (by decide)⟩

/-- C6. With a deadline present, a round-advance request writes nothing
(returns the room unchanged) unless the room is playing, the round is
unresolved and the deadline has passed; in particular any advance after
the round is already resolved leaves the room — scores included —
untouched and performs no second advancement. -/
theorem claim_C6_advance_noop (room : RoomState) (uid : String)
    (now roundSecs t : Nat) (w : String)
    (hdl : room.roundEndsAt = some t) :
    (¬(room.status = RoomStatus.playing ∧ room.roundResolvedAt = none ∧
        t ≤ now) →
       advanceStep room uid now roundSecs w = room) ∧
    (∀ s, room.roundResolvedAt = some s →
       advanceStep room uid now roundSecs w = room) := by
  constructor
  · intro hno
    unfold advanceStep advanceGate
    rw [hdl]
    split_ifs with h1 h2 h3 h4 <;> try rfl
    exfalso
    refine hno ⟨by tauto, ?_, by simpa using h4⟩
    cases hr : room.roundResolvedAt with
    | none => rfl
    | some s => rw [hr] at h3; simp at h3
  · intro s hs
    unfold advanceStep
    rw [advanceGate_none_of_resolved room uid now s hs]

/-- Witness for C6: at time 5, before `sampleRoom`'s deadline of 80000,
an advance request is a no-op. -/
theorem claim_C6_witness :
    advanceStep sampleRoom "t2_b" 5 80 "river" = sampleRoom :=
  (claim_C6_advance_noop sampleRoom "t2_b" 5 80 80000 "river" rfl).1 (by decide)

theorem advanceGate_some (room : RoomState) (uid : String) (now : Nat)
    (r' : RoomState) (h : advanceGate room uid now = some r') :
    r'.status = room.status ∧ r'.roundNumber = room.roundNumber ∧
      r'.maxRounds = room.maxRounds ∧ room.status = RoomStatus.playing ∧
      room.roundResolvedAt = none := by
  unfold advanceGate at h
  split_ifs at h with h1 h2 h3 h4
  cases h
  refine ⟨rfl, rfl, rfl, not_not.mp h2, ?_⟩
  simpa using h3

theorem resolveGuessTxn_some_playing (room : RoomState) (uid : String)
    (now : Nat) (r : RoomState) (h : resolveGuessTxn room uid now = some r) :
    room.status = RoomStatus.playing := by
  unfold resolveGuessTxn at h
  split_ifs at h with h1 h2 h3 h4 h5
  exact not_not.mp h3

theorem advanceOrEnd_roundNumber (room : RoomState) (now roundSecs : Nat)
    (w : String) :
    (advanceOrEnd room now roundSecs w).roundNumber = room.roundNumber ∨
      (advanceOrEnd room now roundSecs w).roundNumber = room.roundNumber + 1 := by
  unfold advanceOrEnd
  split
  · left
    rfl
  · right
    rfl

theorem advanceOrEnd_ended_iff (r r' : RoomState) (now roundSecs : Nat)
    (w : String) (hinv : roomInv r) (hp : r.status = RoomStatus.playing)
    (hs : r'.status = r.status) (hrn : r'.roundNumber = r.roundNumber)
    (hmx : r'.maxRounds = r.maxRounds) :
    (advanceOrEnd r' now roundSecs w).status = RoomStatus.ended ↔
      advanceOrEnd r' now roundSecs w ≠ r ∧ r.roundNumber = r.maxRounds := by
  have hle : r.roundNumber ≤ r.maxRounds := hinv hp
  unfold advanceOrEnd
  split_ifs with hc
  · constructor
    · intro _
      constructor
      · intro heq
        have hst : RoomStatus.ended = r.status := congrArg RoomState.status heq
        rw [hp] at hst
        exact absurd hst (by simp)
      · rw [hmx, hrn] at hc
        omega
    · intro _
      rfl
  · rw [hmx, hrn] at hc
    constructor
    · intro hcon
      have h1 : r'.status = RoomStatus.ended := hcon
      have h2 : RoomStatus.playing = RoomStatus.ended := by
        rw [← hp, ← hs]
        exact h1
      exact absurd h2 (by simp)
    · intro hand
      exact absurd hand.2 (by omega)

theorem applyOp_ended (r : RoomState) (op : GameOp)
    (h : r.status = RoomStatus.ended) : applyOp r op = r := by
  cases op with
  | guess uid text now rs w =>
    show guessStep r uid text now rs w = r
    unfold guessStep
    split_ifs with h1 h2 h3 h4 h5 <;> try rfl
    exact absurd (show r.status ≠ RoomStatus.playing by rw [h]; simp) h3
  | advance uid now rs w =>
    show advanceStep r uid now rs w = r
    unfold advanceStep
    cases hgate : advanceGate r uid now with
    | none => rfl
    | some r' =>
      obtain ⟨_, _, _, hp', _⟩ := advanceGate_some r uid now r' hgate
      rw [h] at hp'
      exact absurd hp' (by simp)

theorem applyOp_roundNumber (r : RoomState) (op : GameOp) :
    (applyOp r op).roundNumber = r.roundNumber ∨
      (applyOp r op).roundNumber = r.roundNumber + 1 := by
  cases op with
  | guess uid text now rs w =>
    show (guessStep r uid text now rs w).roundNumber = _ ∨
      (guessStep r uid text now rs w).roundNumber = _
    unfold guessStep
    split_ifs <;> try (left; rfl)
    cases hres : resolveGuessTxn r uid now with
    | none => left; rfl
    | some r' =>
      obtain ⟨_, hrn, _, _, _⟩ :=
        resolveGuessTxn_some_fields r uid now r' hres
      rcases advanceOrEnd_roundNumber r' now rs w with hh | hh
      · left
        rw [hh, hrn]
      · right
        rw [hh, hrn]
  | advance uid now rs w =>
    show (advanceStep r uid now rs w).roundNumber = _ ∨
      (advanceStep r uid now rs w).roundNumber = _
    unfold advanceStep
    cases hgate : advanceGate r uid now with
    | none => left; rfl
    | some r' =>
      obtain ⟨_, hrn, _, _, _⟩ := advanceGate_some r uid now r' hgate
      rcases advanceOrEnd_roundNumber r' now rs w with hh | hh
      · left
        rw [hh, hrn]
      · right
        rw [hh, hrn]

theorem roomInv_applyOp (r : RoomState) (op : GameOp) (h : roomInv r) :
    roomInv (applyOp r op) := by
  cases op with
  | guess uid text now rs w =>
    show roomInv (guessStep r uid text now rs w)
    unfold guessStep
    split_ifs <;> try exact h
    cases hres : resolveGuessTxn r uid now with
    | none => exact h
    | some r' => exact roomInv_advanceOrEnd r' now rs w
  | advance uid now rs w =>
    show roomInv (advanceStep r uid now rs w)
    unfold advanceStep
    cases hgate : advanceGate r uid now with
    | none => exact h
    | some r' => exact roomInv_advanceOrEnd r' now rs w

theorem roomInv_applyOps (r : RoomState) (ops : List GameOp) (h : roomInv r) :
    roomInv (applyOps r ops) := by
  induction ops generalizing r with
  | nil => exact h
  | cons op ops ih => exact ih (applyOp r op) (roomInv_applyOp r op h)

theorem roundNumber_le_applyOps (r : RoomState) (ops : List GameOp) :
    r.roundNumber ≤ (applyOps r ops).roundNumber := by
  induction ops generalizing r with
  | nil => exact Nat.le_refl _
  | cons op ops ih =>
    have h1 : r.roundNumber ≤ (applyOp r op).roundNumber := by
      rcases applyOp_roundNumber r op with h | h <;> omega
    exact h1.trans (ih (applyOp r op))

theorem applyOp_ended_iff (r : RoomState) (op : GameOp) (hinv : roomInv r)
    (hp : r.status = RoomStatus.playing) :
    (applyOp r op).status = RoomStatus.ended ↔
      applyOp r op ≠ r ∧ r.roundNumber = r.maxRounds := by
  cases op with
  | guess uid text now rs w =>
    show (guessStep r uid text now rs w).status = RoomStatus.ended ↔
      guessStep r uid text now rs w ≠ r ∧ r.roundNumber = r.maxRounds
    unfold guessStep
    split_ifs with h1 h2 h3 h4 h5
    · simp [hp]
    · simp [hp]
    · simp [hp]
    · simp [hp]
    · cases hres : resolveGuessTxn r uid now with
      | none => simp [hp]
      | some r' =>
        obtain ⟨hs, hrn, hmx, _, _⟩ :=
          resolveGuessTxn_some_fields r uid now r' hres
        exact advanceOrEnd_ended_iff r r' now rs w hinv hp hs hrn hmx
    · simp [hp]
  | advance uid now rs w =>
    show (advanceStep r uid now rs w).status = RoomStatus.ended ↔
      advanceStep r uid now rs w ≠ r ∧ r.roundNumber = r.maxRounds
    unfold advanceStep
    cases hgate : advanceGate r uid now with
    | none => simp [hp]
    | some r' =>
      obtain ⟨hs, hrn, hmx, _, _⟩ := advanceGate_some r uid now r' hgate
      exact advanceOrEnd_ended_iff r r' now rs w hinv hp hs hrn hmx

/-- C4. Round-number discipline over arbitrary sequences of guess and
advance requests: each request changes `roundNumber` by exactly 0 or 1,
the counter never decreases, a playing room never has `roundNumber`
above `maxRounds`, `ended` is terminal, a playing room transitions to
`ended` by a request exactly when the request actually resolves (changes
the room) with `roundNumber` already at `maxRounds`, and freshly created
rooms satisfy the invariant. -/
theorem claim_C4_round_number_discipline (r : RoomState) (ops : List GameOp)
    (op : GameOp) (hinv : roomInv r) :
    (r.status = RoomStatus.ended → applyOp r op = r) ∧
    ((applyOp r op).roundNumber = r.roundNumber ∨
      (applyOp r op).roundNumber = r.roundNumber + 1) ∧
    roomInv (applyOps r ops) ∧
    r.roundNumber ≤ (applyOps r ops).roundNumber ∧
    (r.status = RoomStatus.playing →
      ((applyOp r op).status = RoomStatus.ended ↔
        applyOp r op ≠ r ∧ r.roundNumber = r.maxRounds)) ∧
    (∀ (roomId wd : String) (picked : List QueueEntry) (now2 rs mr : Nat),
      1 ≤ mr → roomInv (createRoomFromPicked roomId picked now2 rs mr wd)) :=
  ⟨fun h => applyOp_ended r op h,
   applyOp_roundNumber r op,
   roomInv_applyOps r ops hinv,
   roundNumber_le_applyOps r ops,
   fun hp => applyOp_ended_iff r op hinv hp,
   fun _ _ _ _ _ mr hmr _ => hmr⟩

/-- Witness for C4 at a concrete room and operation sequence: one timed
advance past the deadline keeps the invariant and the counter
monotone. -/
theorem claim_C4_witness :
    (sampleRoom.status = RoomStatus.ended →
      applyOp sampleRoom (GameOp.advance "t2_b" 100000 80 "river") = sampleRoom) ∧
    roomInv (applyOps sampleRoom [GameOp.advance "t2_b" 100000 80 "river"]) ∧
    sampleRoom.roundNumber ≤
      (applyOps sampleRoom [GameOp.advance "t2_b" 100000 80 "river"]).roundNumber := by
  obtain ⟨h1, _, h3, h4, _, _⟩ :=
    claim_C4_round_number_discipline sampleRoom
      [GameOp.advance "t2_b" 100000 80 "river"]
      (GameOp.advance "t2_b" 100000 80 "river") (by intro h; decide)
  exact ⟨h1, h3, h4⟩

/-- C7. Leaving a room removes the caller from `players` and `order` and
always clears the caller's own index entry; if the remaining member
count drops below 2 the room is deleted with every remaining member's
index entry cleared, regardless of resolution state; if the departing
player was the drawer of a playing room (with enough members left), the
round is forced to resolve (`roundResolvedAt` stamped) and the state
machine advances. -/
theorem claim_C7_leave (room : RoomState) (uid : String) (now roundSecs : Nat)
    (w : String) :
    uid ∈ (leaveStep room uid now roundSecs w).clearedUsers ∧
    (∀ r', (leaveStep room uid now roundSecs w).room = some r' →
       lookupP r'.players uid = none ∧ uid ∉ r'.order) ∧
    ((room.order.filter (fun id => id ≠ uid)).length < 2 →
       (leaveStep room uid now roundSecs w).room = none ∧
       (leaveStep room uid now roundSecs w).clearedUsers =
         uid :: room.order.filter (fun id => id ≠ uid)) ∧
    (2 ≤ (room.order.filter (fun id => id ≠ uid)).length →
       room.drawerUserId = some uid → room.status = RoomStatus.playing →
       ∃ forced, forced.roundResolvedAt = some now ∧
         (leaveStep room uid now roundSecs w).room =
           some (advanceOrEnd forced now roundSecs w)) := by
  refine ⟨?_, ?_, ?_, ?_⟩
  · simp only [leaveStep]
    split_ifs <;> simp
  · intro r' h
    simp only [leaveStep] at h
    split_ifs at h with h1 h2
    all_goals
      first
        | (cases Option.some.inj h
           constructor
           · try rw [advanceOrEnd_players]
             exact lookupP_removeP_self room.players uid
           · try rw [advanceOrEnd_order]
             simp)
        | simp at h
  · intro hlen
    simp only [leaveStep]
    split_ifs with h1 h2 <;>
      first
        | exact ⟨rfl, rfl⟩
        | exact absurd hlen h1
  · intro hlen hdrw hst
    simp only [leaveStep]
    split_ifs with h1 h2 <;>
      first
        | omega
        | exact ⟨_, rfl, rfl⟩
        | exact absurd ⟨hdrw, hst⟩ h2

/-- Witness for C7: Bob (the only non-drawer) leaves `sampleRoom`;
membership drops below 2, the room is deleted and both index entries
(Bob's and remaining Alice's) are cleared. -/
theorem claim_C7_witness :
    "t2_b" ∈ (leaveStep sampleRoom "t2_b" 99 80 "river").clearedUsers ∧
    (leaveStep sampleRoom "t2_b" 99 80 "river").room = none ∧
    (leaveStep sampleRoom "t2_b" 99 80 "river").clearedUsers =
      "t2_b" :: sampleRoom.order.filter (fun id => id ≠ "t2_b") := by
  obtain ⟨h1, _, h3, _⟩ := claim_C7_leave sampleRoom "t2_b" 99 80 "river"
  obtain ⟨h3a, h3b⟩ := h3 (by decide)
  exact ⟨h1, h3a, h3b⟩

/-- C5. A user-room index read (session bootstrap / matchmaking join)
returns a room id only when that room exists and lists the user in its
players map; otherwise the mapping is treated as stale and the entry is
cleared to empty rather than returned. -/
theorem claim_C5_index_self_heal (mapping : Option String)
    (load : String → Option RoomState) (uid : String) :
    (∀ rid, (resolveUserRoomMapping mapping load uid).1 = some rid →
       mapping = some rid ∧
       ∃ room, load rid = some room ∧
         (lookupP (withRoomDefaults room).players uid).isSome = true ∧
         (resolveUserRoomMapping mapping load uid).2 = some rid) ∧
    ((resolveUserRoomMapping mapping load uid).1 = none →
       (resolveUserRoomMapping mapping load uid).2 = none) := by
  cases mapping with
  | none =>
    constructor
    · intro rid h
      simp [resolveUserRoomMapping] at h
    · intro _
      rfl
  | some rid0 =>
    cases hload : load rid0 with
    | none =>
      constructor
      · intro rid h
        simp only [resolveUserRoomMapping, hload] at h
        simp at h
      · intro _
        simp [resolveUserRoomMapping, hload]
    | some room0 =>
      by_cases hmem : (lookupP (withRoomDefaults room0).players uid).isSome = true
      · constructor
        · intro rid h
          simp only [resolveUserRoomMapping, hload, if_pos hmem] at h
          cases Option.some.inj h
          refine ⟨rfl, room0, hload, hmem, ?_⟩
          simp [resolveUserRoomMapping, hload, if_pos hmem]
        · intro h
          simp only [resolveUserRoomMapping, hload, if_pos hmem] at h
          simp at h
      · constructor
        · intro rid h
          simp only [resolveUserRoomMapping, hload, if_neg hmem] at h
          simp at h
        · intro _
          simp [resolveUserRoomMapping, hload, if_neg hmem]

/-- Room loader for the C5 witness: only `"r1"` exists. -/
def load1 : String → Option RoomState :=
  fun rid => if rid = "r1" then some sampleRoom else none

/-- Witness for C5: the index maps Alice to `"r1"`, the room exists and
lists her, so the lookup returns it (and keeps the entry). -/
theorem claim_C5_witness :
    (some "r1" : Option String) = some "r1" ∧
    ∃ room, load1 "r1" = some room ∧
      (lookupP (withRoomDefaults room).players "t2_a").isSome = true ∧
      (resolveUserRoomMapping (some "r1") load1 "t2_a").2 = some "r1" :=
  (claim_C5_index_self_heal (some "r1") load1 "t2_a").1 "r1" (by decide)

/-- C2. The match-pick transaction body: with the stale-filtered queue
`q`, no match starts when `q` is below the minimum; otherwise a match
starts exactly when `q` is at capacity or the oldest entry has waited
out the quick-start timeout; on a match the first
`min(capacity, |q|)` entries are removed and returned, oldest-first
(`joinedAt`-ascending, given the stored queue is sorted as the upsert
maintains it), and picked plus remaining partition `q` exactly (the
atomic read-and-remove loses and duplicates nothing). -/
theorem claim_C2_match_pick (maxPlayers minPlayers quickMs now cutoff : Nat)
    (queue : List QueueEntry) (hmin : 2 ≤ minPlayers)
    (hsorted : queue.Pairwise (fun a b => a.joinedAt ≤ b.joinedAt)) :
    ((tryMatchPick maxPlayers minPlayers quickMs now cutoff queue).isSome ↔
       minPlayers ≤ (staleFiltered cutoff queue).length ∧
         (maxPlayers ≤ (staleFiltered cutoff queue).length ∨
           ∃ e0 rest, staleFiltered cutoff queue = e0 :: rest ∧
             quickMs ≤ now - e0.joinedAt)) ∧
    (∀ picked remaining,
       tryMatchPick maxPlayers minPlayers quickMs now cutoff queue =
         some (picked, remaining) →
       picked = (staleFiltered cutoff queue).take
           (min maxPlayers (staleFiltered cutoff queue).length) ∧
         picked.length = min maxPlayers (staleFiltered cutoff queue).length ∧
         picked ++ remaining = staleFiltered cutoff queue ∧
         picked.Pairwise (fun a b => a.joinedAt ≤ b.joinedAt)) := by
  have hqsorted : (staleFiltered cutoff queue).Pairwise
      (fun a b => a.joinedAt ≤ b.joinedAt) := List.Pairwise.filter _ hsorted
  simp only [tryMatchPick]
  revert hqsorted
  generalize staleFiltered cutoff queue = q
  intro hqsorted
  by_cases hlen : q.length < minPlayers
  · rw [if_pos hlen]
    constructor
    · simp only [Option.isSome_none, Bool.false_eq_true, false_iff]
      rintro ⟨h1, _⟩
      omega
    · intro picked remaining h
      simp at h
  · rw [if_neg hlen]
    cases q with
    | nil =>
      exfalso
      simp only [List.length_nil] at hlen
      omega
    | cons e0 rest =>
      dsimp only
      by_cases hcan : maxPlayers ≤ (e0 :: rest).length ∨
          (minPlayers ≤ (e0 :: rest).length ∧ quickMs ≤ now - e0.joinedAt)
      · rw [if_pos hcan]
        constructor
        · simp only [Option.isSome_some, true_iff]
          refine ⟨by omega, ?_⟩
          rcases hcan with h | h
          · exact Or.inl h
          · exact Or.inr ⟨e0, rest, rfl, h.2⟩
        · intro picked remaining h
          simp only [Option.some.injEq, Prod.mk.injEq] at h
          obtain ⟨hA, hB⟩ := h
          have hlenpick : ((e0 :: rest).take
              (min maxPlayers (e0 :: rest).length)).length =
              min maxPlayers (e0 :: rest).length := by
            rw [List.length_take]
            exact Nat.min_eq_left (Nat.min_le_right _ _)
          refine ⟨hA.symm, ?_, ?_, ?_⟩
          · rw [← hA, hlenpick]
          · rw [← hA, ← hB, hlenpick, List.take_append_drop]
          · rw [← hA]
            exact List.Pairwise.sublist (List.take_sublist _ _) hqsorted
      · rw [if_neg hcan]
        constructor
        · simp only [Option.isSome_none, Bool.false_eq_true, false_iff]
          rintro ⟨h1, h2⟩
          apply hcan
          rcases h2 with h | ⟨e0', rest', heq, hwait⟩
          · exact Or.inl h
          · cases heq
            exact Or.inr ⟨h1, hwait⟩
        · intro picked remaining h
          simp at h

/-- Queue entries for concrete witnesses: Alice joined at 0, Bob at
50, both recently seen. -/
def qAlice : QueueEntry := ⟨"t2_a", "Alice", 0, 100⟩

def qBob : QueueEntry := ⟨"t2_b", "Bob", 50, 100⟩

/-- Witness for C2: with capacity 2, minimum 2 and a 2-entry fresh
queue, the pick takes both entries in join order and empties the
queue. -/
theorem claim_C2_witness :
    ([qAlice, qBob] : List QueueEntry) =
      (staleFiltered 0 [qAlice, qBob]).take
        (min 2 (staleFiltered 0 [qAlice, qBob]).length) ∧
    [qAlice, qBob] ++ ([] : List QueueEntry) = staleFiltered 0 [qAlice, qBob] ∧
    ([qAlice, qBob] : List QueueEntry).Pairwise
      (fun a b => a.joinedAt ≤ b.joinedAt) := by
  obtain ⟨_, hsome⟩ :=
    claim_C2_match_pick 2 2 8000 10000 0 [qAlice, qBob] (by decide) (by decide)
  obtain ⟨h1, _, h3, h4⟩ := hsome [qAlice, qBob] [] (by decide)
  exact ⟨h1, h3, h4⟩

theorem tryMatchPick_some_len (maxP minP qms now cutoff : Nat)
    (queue picked remaining : List QueueEntry)
    (h : tryMatchPick maxP minP qms now cutoff queue =
      some (picked, remaining)) :
    picked.length = min maxP (staleFiltered cutoff queue).length ∧
      minP ≤ (staleFiltered cutoff queue).length ∧
      picked = (staleFiltered cutoff queue).take
        (min maxP (staleFiltered cutoff queue).length) := by
  simp only [tryMatchPick] at h
  revert h
  generalize staleFiltered cutoff queue = q
  intro h
  by_cases hlen : q.length < minP
  · rw [if_pos hlen] at h
    simp at h
  · rw [if_neg hlen] at h
    cases q with
    | nil =>
      simp at h
    | cons e0 rest =>
      dsimp only at h
      split_ifs at h with hcan
      simp only [Option.some.injEq, Prod.mk.injEq] at h
      obtain ⟨hA, _⟩ := h
      refine ⟨?_, by omega, hA.symm⟩
      rw [← hA, List.length_take]
      exact Nat.min_eq_left (Nat.min_le_right _ _)

/-- C10. The match-start configuration is sanitized before use: for any
`maxPlayers` / `minPlayersToStart` setting values — missing, non-numeric
(both `none`) or out of range — the effective capacity is clamped into
`[2, 4]` and the effective minimum to at least 2, so any successful pick
(and hence any room created by match start) has between 2 and 4
players. -/
theorem claim_C10_capacity_clamp (vmax vmin : Option Int)
    (quickMs now cutoff rs mr : Nat) (queue : List QueueEntry)
    (rid wd : String) :
    2 ≤ clampMaxPlayers vmax ∧ clampMaxPlayers vmax ≤ 4 ∧
    2 ≤ clampMinPlayers vmin ∧
    (∀ picked remaining,
       tryMatchPick (clampMaxPlayers vmax) (clampMinPlayers vmin) quickMs now
           cutoff queue = some (picked, remaining) →
       2 ≤ picked.length ∧ picked.length ≤ 4 ∧
       (createRoomFromPicked rid picked now rs mr wd).order.length =
         picked.length ∧
       (createRoomFromPicked rid picked now rs mr wd).players.length =
         picked.length ∧
       ((queue.map (fun e => e.userId)).Nodup →
          ((createRoomFromPicked rid picked now rs mr wd).players.map
            Prod.fst).Nodup)) := by
  have hmax2 : 2 ≤ clampMaxPlayers vmax := by
    cases vmax <;> simp [clampMaxPlayers, settingNumber] <;> omega
  have hmax4 : clampMaxPlayers vmax ≤ 4 := by
    cases vmax <;> simp [clampMaxPlayers, settingNumber] <;> omega
  have hmin2 : 2 ≤ clampMinPlayers vmin := by
    cases vmin <;> simp [clampMinPlayers, settingNumber] <;> omega
  refine ⟨hmax2, hmax4, hmin2, ?_⟩
  intro picked remaining h
  obtain ⟨hplen, hqlen, hpick⟩ :=
    tryMatchPick_some_len _ _ _ _ _ _ _ _ h
  have hsub : List.Sublist picked queue :=
    (hpick ▸ List.take_sublist _ _).trans (List.filter_sublist queue)
  have hordlen : (createRoomFromPicked rid picked now rs mr wd).order.length =
      picked.length := List.length_map _ _
  have hplayerslen :
      (createRoomFromPicked rid picked now rs mr wd).players.length =
      picked.length := List.length_map _ _
  refine ⟨by omega, by omega, hordlen, hplayerslen, ?_⟩
  intro hnodup
  have hpl : (createRoomFromPicked rid picked now rs mr wd).players.map
      Prod.fst = picked.map (fun e => e.userId) := by
    simp [createRoomFromPicked, List.map_map, Function.comp]
  rw [hpl]
  exact List.Nodup.sublist (List.Sublist.map _ hsub) hnodup

/-- Witness for C10: with both settings absent the clamps give capacity
4 and minimum 2, and a 2-entry queue pick yields a 2-player roster with
distinct ids. -/
theorem claim_C10_witness :
    2 ≤ clampMaxPlayers none ∧ clampMaxPlayers none ≤ 4 ∧
    2 ≤ ([qAlice, qBob] : List QueueEntry).length ∧
    ([qAlice, qBob] : List QueueEntry).length ≤ 4 ∧
    ((createRoomFromPicked "r2" [qAlice, qBob] 10000 80 3 "river").players.map
      Prod.fst).Nodup := by
  obtain ⟨h1, h2, _, h4⟩ :=
    claim_C10_capacity_clamp none none 8000 10000 0 80 3 [qAlice, qBob]
      "r2" "river"
  obtain ⟨w1, w2, _, _, w5⟩ := h4 [qAlice, qBob] [] (by decide)
  exact ⟨h1, h2, w1, w2, w5 (by decide)⟩

theorem firstSuccess_isSome_iff (n : Nat) (s : Nat → Bool) :
    (firstSuccess n s).isSome = true ↔ ∃ i, i < n ∧ s i = true := by
  unfold firstSuccess
  rw [List.find?_isSome]
  constructor
  · rintro ⟨i, hmem, hs⟩
    exact ⟨i, List.mem_range.mp hmem, hs⟩
  · rintro ⟨i, hlt, hs⟩
    exact ⟨i, List.mem_range.mpr hlt, hs⟩

/-- A queue entry last seen at time 0, stale for any positive cutoff. -/
def staleEntry : QueueEntry := ⟨"t2_z", "Zed", 0, 0⟩

/-- Counterexample to C9 as stated: when all 5 transaction attempts
conflict, the stale-entry sweep performs NO fallback write — it reports
failure and leaves the stale entry in the queue (the mutation is
dropped), unlike upsert and remove which do fall back. -/
theorem claim_C9_counterexample :
    queueFilterStaleAtomicModel (fun _ => false) [staleEntry] 10 =
      ([staleEntry], false) ∧
    staleEntry.lastSeen < 10 ∧
    staleFiltered 10 [staleEntry] = [] ∧
    queueUpsertAtomicModel (fun _ => false) [staleEntry] "t2_a" "A" 5 0 =
      upsertQueue [staleEntry] "t2_a" "A" 5 0 ∧
    queueRemoveUserAtomicModel (fun _ => false) [staleEntry] "t2_z" = [] := by
  refine ⟨rfl, by decide, rfl, rfl, rfl⟩

/-- C9 (amended). The join upsert and the explicit remove retry their
transaction up to 5 attempts and, on exhaustion, apply the same change
through a non-atomic fallback, so those mutations are always applied;
the stale-entry sweep, however, has no fallback: it applies the filter
only when some attempt succeeds and otherwise returns `false` leaving
the queue unchanged. -/
theorem claim_C9_amended_retry_fallback (succeeds : Nat → Bool)
    (queue : List QueueEntry) (uid name : String) (now cutoff : Nat) :
    queueUpsertAtomicModel succeeds queue uid name now cutoff =
      upsertQueue queue uid name now cutoff ∧
    queueRemoveUserAtomicModel succeeds queue uid =
      queue.filter (fun e => e.userId ≠ uid) ∧
    ((∃ i, i < maxQueueTransactionRetries ∧ succeeds i = true) →
       queueFilterStaleAtomicModel succeeds queue cutoff =
         (staleFiltered cutoff queue, true)) ∧
    ((∀ i, i < maxQueueTransactionRetries → succeeds i = false) →
       queueFilterStaleAtomicModel succeeds queue cutoff = (queue, false)) := by
  refine ⟨?_, ?_, ?_, ?_⟩
  · unfold queueUpsertAtomicModel
    cases firstSuccess maxQueueTransactionRetries succeeds <;> rfl
  · unfold queueRemoveUserAtomicModel
    cases firstSuccess maxQueueTransactionRetries succeeds <;> rfl
  · intro hex
    have hsome : (firstSuccess maxQueueTransactionRetries succeeds).isSome =
        true := (firstSuccess_isSome_iff _ _).mpr hex
    unfold queueFilterStaleAtomicModel
    cases hfs : firstSuccess maxQueueTransactionRetries succeeds with
    | none => rw [hfs] at hsome; simp at hsome
    | some i => rfl
  · intro hall
    have hnone : firstSuccess maxQueueTransactionRetries succeeds = none := by
      unfold firstSuccess
      rw [List.find?_eq_none]
      intro i hmem
      simp [hall i (List.mem_range.mp hmem)]
    unfold queueFilterStaleAtomicModel
    rw [hnone]

/-- Witness for the amended C9: with an oracle that succeeds on the
first attempt the sweep applies; with an always-conflicting oracle the
upsert still applies (via fallback) while the sweep gives up. -/
theorem claim_C9_witness :
    queueUpsertAtomicModel (fun i => i == 0) [staleEntry] "t2_a" "A" 5 10 =
      upsertQueue [staleEntry] "t2_a" "A" 5 10 ∧
    queueFilterStaleAtomicModel (fun i => i == 0) [staleEntry] 10 =
      (staleFiltered 10 [staleEntry], true) ∧
    queueFilterStaleAtomicModel (fun _ => false) [staleEntry] 10 =
      ([staleEntry], false) := by
  obtain ⟨h1, _, h3, _⟩ :=
    claim_C9_amended_retry_fallback (fun i => i == 0) [staleEntry] "t2_a" "A"
      5 10
  refine ⟨h1, h3 ⟨0, by decide, rfl⟩, ?_⟩
  exact (claim_C9_amended_retry_fallback (fun _ => false) [staleEntry] "t2_a"
    "A" 5 10).2.2.2 (fun i _ => rfl)

/-- A room whose drawer id happens to equal the sentinel viewer id used
by `broadcastRoomState`. -/
def leakRoom : RoomState := { sampleRoom with drawerUserId := some "not-a-viewer" }

/-- Counterexample to C8 as stated: the broadcast redaction works by
rendering the snapshot for the sentinel viewer `"not-a-viewer"`, so a
room state whose `drawerUserId` equals that sentinel has its secret word
included in the shared-channel snapshot. -/
theorem claim_C8_counterexample :
    (broadcastState leakRoom).word = some "guitar" ∧
      (broadcastState leakRoom).word ≠ none := by
  refine ⟨rfl, by decide⟩

/-- C8 (amended). For every room whose drawer id is not the sentinel
`"not-a-viewer"`, the shared-channel snapshot never contains the secret
word, only its underscore mask; and the personalized state contains the
secret word exactly when the requesting viewer is the current drawer. -/
theorem claim_C8_amended_redaction (room : RoomState) (viewer : String) :
    (room.drawerUserId ≠ some "not-a-viewer" →
       (broadcastState room).word = none) ∧
    ((publicState room viewer).word.isSome = true ↔
       room.drawerUserId = some viewer ∧ room.word.isSome = true) ∧
    (room.drawerUserId = some viewer →
       (publicState room viewer).word = room.word) ∧
    (∀ w, room.word = some w → w.isEmpty = false →
       (broadcastState room).wordMask = some (maskWord w)) := by
  refine ⟨?_, ?_, ?_, ?_⟩
  · intro h
    simp only [broadcastState, publicState]
    rw [if_neg h]
  · simp only [publicState]
    by_cases h : room.drawerUserId = some viewer
    · rw [if_pos h]
      constructor
      · intro hw
        exact ⟨h, hw⟩
      · intro hand
        exact hand.2
    · rw [if_neg h]
      simp only [Option.isSome_none, Bool.false_eq_true, false_iff]
      intro hand
      exact h hand.1
  · intro h
    simp only [publicState]
    rw [if_pos h]
  · intro w hw hempty
    simp only [broadcastState, publicState, hw]
    rw [if_neg (by simp [hempty])]

/-- Witness for the amended C8: for `sampleRoom` (drawer `"t2_a"`) the
broadcast hides the word and exposes the mask, while the drawer's
personalized view reveals it. -/
theorem claim_C8_witness :
    (broadcastState sampleRoom).word = none ∧
    (publicState sampleRoom "t2_a").word = sampleRoom.word ∧
    (broadcastState sampleRoom).wordMask = some (maskWord "guitar") := by
  obtain ⟨h1, _, h3, h4⟩ := claim_C8_amended_redaction sampleRoom "t2_a"
  exact ⟨h1 (by decide), h3 rfl, h4 "guitar" rfl rfl⟩

end Scroodle
